import Mathlib

/-!
Shallow embedding of `core/intraday_event_study.py`.

The module has three components:
* `reindex_event_features` (grid aligner),
* `build_local_timeseries` / `_shift_and_select` (event window extractor),
* `regression` (linear model fitter).

Timestamps are modelled as `Int`, a timestamp-indexed dataframe as a list of
(timestamp, row) pairs in index order, and a pandas shift frequency as an
abstract `Option Int` time step.  Python exceptions are modelled with
`Except`: `dbg.dassert*` failures raise `AssertionError`, the read of the
undefined name `mode` in `_shift_and_select` raises `NameError`, and the call
of the nonexistent `np.mat_mul` in `regression` raises `AttributeError`.
`helpers/dbg.py` is not part of the sources; its assertion helpers are
modelled from the spec where noted.
-/

deriving instance DecidableEq for Except

namespace EventStudy

/-- Python exceptions that the embedded code can raise. -/
inductive PyErr where
  | assertionError
  | nameError
  | attributeError
  | linAlgError
  | indexingError
deriving DecidableEq, Repr

/-- A timestamp-indexed dataframe: rows of type `α` listed in index order. -/
abbrev Frame (α : Type) := List (Int × α)

/-- The index of a frame (pandas `df.index`). -/
def indexOf (df : Frame α) : List Int := df.map Prod.fst

/-- Row lookup by timestamp (pandas `df.loc[t]` for a unique index). -/
def lookupRow (df : Frame α) (t : Int) : Option α :=
  (df.find? (fun p => p.1 == t)).map Prod.snd

/-- The row at integer position `j`, if `0 ≤ j < len` (otherwise the
positional shift produces an all-NaN row, modelled as `none`). -/
def posVal (df : Frame α) (j : Int) : Option α :=
  if 0 ≤ j then (df.get? j.toNat).map Prod.snd else none

/-- Helper for the positional (no-`freq`) shift: row `i` of the result keeps
its timestamp and takes the value of row `i - periods` of the original. -/
def shiftNoneAux (orig : Frame α) (periods : Int) : Nat → Frame α → Frame (Option α)
  | _, [] => []
  | i, p :: rest => (p.1, posVal orig ((i : Int) - periods)) :: shiftNoneAux orig periods (i + 1) rest

/-- pandas `df.shift(periods, freq)`: with `freq = none` the values move by
`periods` row positions and the index is unchanged; with `freq = some f` the
index moves by `periods * f` and the values stay attached to their rows. -/
def shiftFrame (df : Frame α) (periods : Int) (freq : Option Int) : Frame (Option α) :=
  match freq with
  | some f => df.map (fun p => (p.1 + periods * f, some p.2))
  | none => shiftNoneAux df periods 0 df

/-- pandas `idx.intersection(other)` for the monotone indices used here:
the elements of `idx` that also occur in `shiftedIdx`, in `idx` order. -/
def interIdx (idx : List Int) (shiftedIdx : List Int) : List Int :=
  idx.filter (fun t => shiftedIdx.contains t)

/-- The source's `intersection.difference(idx)` stored under
`info["indices_with_no_data"]` (elements of the intersection missing from
the event index). -/
def indicesWithNoData (inter : List Int) (idx : List Int) : List Int :=
  inter.filter (fun t => !idx.contains t)

/-- Modelled from the spec: the set that the diagnostics are supposed to
record, `events_index - intersection` (event timestamps lacking data
coverage).  The source is compared against this definition. -/
def indicesWithNoDataSpec (idx : List Int) (inter : List Int) : List Int :=
  idx.filter (fun t => !inter.contains t)

/-- A coverage-shortfall warning (`_LOG.warning("pct_found=..for periods=..")`):
the offset it concerns and the fraction `found / total` it reports. -/
structure Warn where
  periods : Int
  found : Nat
  total : Nat
deriving DecidableEq, Repr

/-- `_shift_and_select(idx, grid_data, periods, freq, info)`.  Shift
`grid_data`, intersect the shifted index with `idx`, assert the intersection
nonempty, warn when coverage is below 90%, and select the intersecting rows.
When an `info` dict is supplied the function writes its stats and then
evaluates the undefined name `mode` (line 196 of the source), so it raises
`NameError` before returning. -/
def shiftAndSelect (idx : List Int) (grid : Frame α) (periods : Int)
    (freq : Option Int) (useInfo : Bool) :
    Except PyErr (Frame (Option α) × List Warn) :=
  let shifted := shiftFrame grid periods freq
  let inter := interIdx idx (indexOf shifted)
  if inter.isEmpty then .error .assertionError
  else
    let warns : List Warn :=
      if 10 * inter.length < 9 * idx.length then [⟨periods, inter.length, idx.length⟩] else []
    let selected := inter.filterMap (fun t => (lookupRow shifted t).map (fun v => (t, v)))
    if useInfo then .error .nameError
    else .ok (selected, warns)

/-- Python `dict` insertion: overwrite the value in place if the key exists,
else append the binding. -/
def dictInsert (d : List (Int × v)) (k : Int) (x : v) : List (Int × v) :=
  if d.any (fun p => p.1 == k) then d.map (fun p => if p.1 == k then (k, x) else p)
  else d ++ [(k, x)]

/-- The gathering loop of `build_local_timeseries`: for each offset `k` (in
the order of the sorted list) call `_shift_and_select` with `periods = -k`,
store the selection in the `relative_data` dict and accumulate warnings.
Any exception aborts the whole loop. -/
def gatherLoop (idx : List Int) (grid : Frame α) (freq : Option Int) (useInfo : Bool) :
    List (Int × Frame (Option α)) → List Warn → List Int →
    Except PyErr (List (Int × Frame (Option α)) × List Warn)
  | acc, ws, [] => .ok (acc, ws)
  | acc, ws, k :: rest =>
    match shiftAndSelect idx grid (-k) freq useInfo with
    | .error e => .error e
    | .ok (sel, w) => gatherLoop idx grid freq useInfo (dictInsert acc k sel) (ws ++ w) rest

/-- pandas `pd.concat(relative_data)`: concatenate the per-offset frames,
prefixing each timestamp with its offset key (the resulting MultiIndex). -/
def concatFrames (d : List (Int × Frame (Option α))) : List ((Int × Int) × Option α) :=
  (d.map (fun p => p.2.map (fun q => ((p.1, q.1), q.2)))).flatten

/-- Boolean chain check: `lt` holds between every two adjacent elements. -/
def chainB (lt : α → α → Bool) : List α → Bool
  | [] => true
  | [_] => true
  | a :: b :: l => lt a b && chainB lt (b :: l)

/-- Modelled from the spec: `dbg.dassert_monotonic_index` (from the missing
`helpers/dbg.py`) checks that an index is strictly monotonically
increasing. -/
def strictIncrB (l : List Int) : Bool :=
  chainB (fun a b => decide (a < b)) l

/-- Strict lexicographic order on the (offset, timestamp) composite keys. -/
def keyLt (a b : Int × Int) : Prop := a.1 < b.1 ∨ (a.1 = b.1 ∧ a.2 < b.2)

/-- Non-strict lexicographic order on the composite keys. -/
def keyLe (a b : Int × Int) : Prop := a.1 < b.1 ∨ (a.1 = b.1 ∧ a.2 ≤ b.2)

instance : DecidableRel keyLt := fun a b => by unfold keyLt; exact inferInstance

instance : DecidableRel keyLe := fun a b => by unfold keyLe; exact inferInstance

/-- Boolean form of `keyLt`, used for the output monotonicity assertion. -/
def keyLtB (a b : Int × Int) : Bool :=
  a.1 < b.1 || (a.1 == b.1 && a.2 < b.2)

/-- Python `list.sort()` on the offset list (ascending). -/
def sortOffsets (l : List Int) : List Int := List.insertionSort (· ≤ ·) l

/-- `build_local_timeseries(events, grid_data, relative_grid_indices, freq,
info)`.  Validates the inputs (`dbg.dassert_isinstance` is enforced by
typing; the monotonicity and nonemptiness asserts are modelled from the
spec), sorts the offsets, gathers the per-offset selections, concatenates
them and asserts the concatenated composite index monotone.  `useInfo`
records whether a diagnostics dict was supplied. -/
def buildLocalTimeseries (events : Frame β) (grid : Frame α) (offsets : List Int)
    (freq : Option Int) (useInfo : Bool) :
    Except PyErr (List ((Int × Int) × Option α) × List Warn) :=
  if !strictIncrB (indexOf events) then .error .assertionError
  else if !strictIncrB (indexOf grid) then .error .assertionError
  else if offsets.isEmpty then .error .assertionError
  else
    match gatherLoop (indexOf events) grid freq useInfo [] [] (sortOffsets offsets) with
    | .error e => .error e
    | .ok (d, ws) =>
      let df := concatFrames d
      if !chainB keyLtB (df.map Prod.fst) then .error .assertionError
      else .ok (df, ws)

/-- Caller-visible state of the `relative_grid_indices` argument after
`build_local_timeseries` returns: a list is sorted in place by
`relative_grid_indices.sort()`; any other iterable is first copied by
`list(...)`, so the caller's object is untouched. -/
def relativeGridIndicesAfterCall (offsets : List Int) (passedAsList : Bool) : List Int :=
  if passedAsList then sortOffsets offsets else offsets

/-- `reindex_event_features`: pandas `events.reindex(index=grid_data.index)`
with an optional caller-supplied fill value (the `**kwargs`); the default
`none` is the NaN missing marker. -/
def reindexFrame (events : Frame α) (newIdx : List Int) (fill : Option α) : Frame (Option α) :=
  newIdx.map (fun t =>
    (t, match lookupRow events t with
        | some v => some v
        | none => fill))

/-- `reindex_event_features(events, grid_data, **kwargs)`: reindex `events`
onto the index of `grid_data`. -/
def reindexEventFeatures (events : Frame α) (grid : Frame β) (fill : Option α) :
    Frame (Option α) :=
  reindexFrame events (indexOf grid) fill

/-! ### The regression routine

Numeric values are modelled exactly over `ℚ` (the claims under study concern
the routine's control flow, not floating-point rounding). -/

/-- The design matrix `x`: `ncols` predictors (`x.shape[1]`), one list per
observation row. -/
structure DesignMatrix where
  ncols : Nat
  rows : List (List ℚ)
deriving DecidableEq, Repr

/-- The response `y`: a timestamp-indexed series whose entries may be NaN
(modelled as `none`). -/
abbrev RSeries := List (Int × Option ℚ)

/-- Boolean-mask row selection (`x[nan_filter]`). -/
def applyMask : List γ → List Bool → List γ
  | [], _ => []
  | _, [] => []
  | a :: l, b :: bs => if b then a :: applyMask l bs else applyMask l bs

/-- Dot product of two rows. -/
def dotProd (u v : List ℚ) : ℚ := ((u.zip v).map (fun p => p.1 * p.2)).sum

/-- Prepend the entries of row `r` to the respective columns. -/
def zipCons (r : List ℚ) (cols : List (List ℚ)) : List (List ℚ) :=
  match r, cols with
  | [], _ => []
  | v :: vs, [] => [v] :: zipCons vs []
  | v :: vs, c :: cs => (v :: c) :: zipCons vs cs

/-- Matrix transpose (`x.transpose()`) of a rectangular row-major matrix. -/
def transposeM : List (List ℚ) → List (List ℚ)
  | [] => []
  | r :: rest => zipCons r (transposeM rest)

/-- Matrix product (`a.dot(b)`). -/
def matMul (a b : List (List ℚ)) : List (List ℚ) :=
  a.map (fun r => (transposeM b).map (fun c => dotProd r c))

/-- Matrix-vector product. -/
def matVec (a : List (List ℚ)) (v : List ℚ) : List ℚ := a.map (fun r => dotProd r v)

/-- Determinant by Laplace expansion along the first row, with a fuel
argument for structural recursion. -/
def detN : Nat → List (List ℚ) → ℚ
  | 0, _ => 1
  | _, [] => 1
  | n + 1, r :: rest =>
    ((r.enum).map (fun p =>
      (if p.1 % 2 = 0 then p.2 else -p.2) *
        detN n (rest.map (fun row => row.eraseIdx p.1)))).sum

/-- Determinant of a square matrix. -/
def det (m : List (List ℚ)) : ℚ := detN m.length m

/-- Replace column `j` of `a` by `c`. -/
def replaceCol (a : List (List ℚ)) (j : Nat) (c : List ℚ) : List (List ℚ) :=
  (a.zip c).map (fun p => p.1.set j p.2)

/-- `np.linalg.lstsq(x, y)[0]`: for the full-column-rank case (the only one
whose value could ever be observed here) the least-squares solution solves
the normal equations `(xᵗx)·beta = xᵗy`, computed exactly by Cramer's
rule. -/
def lstsqBeta (xf : List (List ℚ)) (yv : List ℚ) : List ℚ :=
  let a := matMul (transposeM xf) xf
  let b := matVec (transposeM xf) yv
  (List.range a.length).map (fun j => det (replaceCol a j b) / det a)

/-- Number of non-NaN response observations (`np.count_nonzero(~np.isnan(y))`). -/
def countNonNaN (y : RSeries) : Nat := (y.filter (fun p => p.2.isSome)).length

/-- `regression(x, y, info)`.  Filters NaN responses, computes the OLS
statistics, and then computes fitted values.  `np.isnan(y)` and the boolean
selection `x[nan_filter]` require `x` and `y` to be row-aligned.
`np.linalg.inv((x.T).dot(x))` raises `LinAlgError` on a singular matrix, and
the final fitted-values line calls `np.mat_mul(x, beta_hat)`: numpy defines
`np.matmul` but no `np.mat_mul`, so the line raises `AttributeError`.
Intermediate quantities that numpy returns as empty arrays (the residual
sum of squares when `nobs <= num_predictors` or the rank is deficient) are
modelled as `none`. -/
def regression (x : DesignMatrix) (y : RSeries) : Except PyErr (List (Int × ℚ)) :=
  if x.rows.length ≠ y.length then .error .indexingError
  else
    let mask := y.map (fun p => p.2.isSome)
    let xf := applyMask x.rows mask
    let yf := y.filter (fun p => p.2.isSome)
    let nobs := yf.length
    let yvals := yf.filterMap (fun p => p.2)
    let yMean : Option ℚ := if nobs = 0 then none else some (yvals.sum / (nobs : ℚ))
    let tss : Option ℚ := yMean.map (fun m => ((yvals.map (fun v => (v - m) * (v - m))).sum))
    let xtx := matMul (transposeM xf) xf
    let beta := lstsqBeta xf yvals
    let rss : Option ℚ :=
      if nobs ≤ x.ncols ∨ det xtx = 0 then none
      else some (((yvals.zip (matVec xf beta)).map (fun p => (p.1 - p.2) * (p.1 - p.2))).sum)
    let rSq : Option ℚ :=
      match rss, tss with
      | some r, some t => some (1 - r / t)
      | _, _ => none
    if det xtx = 0 then .error .linAlgError
    else
      let sigmaHatSq : Option ℚ := rss.map (fun r => r / ((nobs : ℚ) - (x.ncols : ℚ)))
      .error .attributeError

/-! ### Helper lemmas -/

theorem chainB_iff (lt : γ → γ → Bool) (l : List γ) :
    chainB lt l = true ↔ List.Chain' (fun a b => lt a b = true) l := by
  induction l with
  | nil => simp [chainB]
  | cons a l ih =>
    cases l with
    | nil => simp [chainB]
    | cons b m =>
      rw [List.chain'_cons, ← ih]
      simp [chainB]

theorem strictIncrB_iff (l : List Int) :
    strictIncrB l = true ↔ List.Chain' (· < ·) l := by
  rw [strictIncrB, chainB_iff]
  constructor
  · intro h
    exact h.imp (fun a b hab => of_decide_eq_true hab)
  · intro h
    exact h.imp (fun a b hab => decide_eq_true hab)

theorem pairwise_lt_of_strictIncrB {l : List Int} (h : strictIncrB l = true) :
    List.Pairwise (· < ·) l :=
  List.chain'_iff_pairwise.mp ((strictIncrB_iff l).mp h)

theorem sortOffsets_eq_of_perm {l1 l2 : List Int} (h : l1.Perm l2) :
    sortOffsets l1 = sortOffsets l2 :=
  List.eq_of_perm_of_sorted
    (((List.perm_insertionSort _ l1).trans h).trans (List.perm_insertionSort _ l2).symm)
    (List.sorted_insertionSort _ l1) (List.sorted_insertionSort _ l2)

theorem gatherLoop_error_of_empty (idx : List Int) (grid : Frame α) (freq : Option Int)
    (ui : Bool) :
    ∀ (l : List Int) (acc : List (Int × Frame (Option α))) (ws : List Warn),
    (∃ k ∈ l, interIdx idx (indexOf (shiftFrame grid (-k) freq)) = []) →
    ∃ e, gatherLoop idx grid freq ui acc ws l = .error e := by
  intro l
  induction l with
  | nil =>
    rintro acc ws ⟨k, hk, -⟩
    exact absurd hk (List.not_mem_nil k)
  | cons a rest ih =>
    rintro acc ws ⟨k, hk, hek⟩
    rcases List.mem_cons.mp hk with rfl | hk2
    · exact ⟨.assertionError, by simp [gatherLoop, shiftAndSelect, hek]⟩
    · cases hss : shiftAndSelect idx grid (-a) freq ui with
      | error e => exact ⟨e, by simp [gatherLoop, hss]⟩
      | ok p =>
        obtain ⟨sel, w⟩ := p
        obtain ⟨e, he⟩ := ih (dictInsert acc a sel) (ws ++ w) ⟨k, hk2, hek⟩
        exact ⟨e, by simp [gatherLoop, hss, he]⟩

theorem filterMap_pair_fst_sublist (g : Int → Option γ) (l : List Int) :
    ((l.filterMap (fun t => (g t).map (fun v => (t, v)))).map Prod.fst).Sublist l := by
  induction l with
  | nil => simp
  | cons a l ih =>
    cases hg : g a with
    | none =>
      simp only [List.filterMap_cons, hg, Option.map_none']
      exact ih.cons a
    | some v =>
      simp only [List.filterMap_cons, hg, Option.map_some', List.map_cons]
      exact ih.cons₂ a

theorem shiftAndSelect_ok_keys (idx : List Int) (grid : Frame α) (periods : Int)
    (freq : Option Int) (ui : Bool) (sel : Frame (Option α)) (w : List Warn)
    (hidx : List.Pairwise (· < ·) idx)
    (h : shiftAndSelect idx grid periods freq ui = .ok (sel, w)) :
    List.Pairwise (· < ·) (sel.map Prod.fst) := by
  simp only [shiftAndSelect] at h
  split at h
  · exact absurd h (by simp)
  split at h
  · exact absurd h (by simp)
  rw [Except.ok.injEq, Prod.mk.injEq] at h
  obtain ⟨hsel, -⟩ := h
  rw [← hsel]
  have hint : (interIdx idx (indexOf (shiftFrame grid periods freq))).Sublist idx := by
    unfold interIdx
    exact List.filter_sublist _
  exact (hidx.sublist hint).sublist
    (filterMap_pair_fst_sublist (fun t => lookupRow (shiftFrame grid periods freq) t)
      (interIdx idx (indexOf (shiftFrame grid periods freq))))

theorem dictInsert_keys (d : List (Int × v)) (k : Int) (x : v) :
    (dictInsert d k x).map Prod.fst =
      if d.any (fun p => p.1 == k) then d.map Prod.fst else d.map Prod.fst ++ [k] := by
  unfold dictInsert
  split
  · rw [List.map_map]
    apply List.map_congr_left
    intro p _
    by_cases hp : p.1 == k
    · simp only [Function.comp_apply, if_pos hp]
      exact (eq_of_beq hp).symm
    · simp only [Function.comp_apply, if_neg hp]
  · simp

theorem dictInsert_mem {d : List (Int × v)} {k : Int} {x : v} {p : Int × v}
    (h : p ∈ dictInsert d k x) : p ∈ d ∨ p = (k, x) := by
  unfold dictInsert at h
  split at h
  · obtain ⟨q, hq, hqe⟩ := List.mem_map.mp h
    by_cases hqk : q.1 == k
    · rw [if_pos hqk] at hqe
      exact Or.inr hqe.symm
    · rw [if_neg hqk] at hqe
      exact Or.inl (hqe ▸ hq)
  · rcases List.mem_append.mp h with h1 | h1
    · exact Or.inl h1
    · right
      simpa using h1

theorem gatherLoop_ok_dict (idx : List Int) (grid : Frame α) (freq : Option Int)
    (ui : Bool) (hidx : List.Pairwise (· < ·) idx) :
    ∀ (l : List Int) (acc : List (Int × Frame (Option α))) (ws : List Warn)
      (d : List (Int × Frame (Option α))) (wsOut : List Warn),
    List.Pairwise (· ≤ ·) l →
    (∀ p ∈ acc, ∀ k ∈ l, p.1 ≤ k) →
    List.Pairwise (· < ·) (acc.map Prod.fst) →
    (∀ p ∈ acc, List.Pairwise (· < ·) (p.2.map Prod.fst)) →
    gatherLoop idx grid freq ui acc ws l = .ok (d, wsOut) →
    List.Pairwise (· < ·) (d.map Prod.fst) ∧
      ∀ p ∈ d, List.Pairwise (· < ·) (p.2.map Prod.fst) := by
  intro l
  induction l with
  | nil =>
    intro acc ws d wsOut _ _ hkeys hvals h
    simp only [gatherLoop, Except.ok.injEq, Prod.mk.injEq] at h
    obtain ⟨rfl, rfl⟩ := h
    exact ⟨hkeys, hvals⟩
  | cons a rest ih =>
    intro acc ws d wsOut hsorted hbound hkeys hvals h
    cases hss : shiftAndSelect idx grid (-a) freq ui with
    | error e =>
      rw [gatherLoop, hss] at h
      exact absurd h (by simp)
    | ok p =>
      obtain ⟨sel, w⟩ := p
      rw [gatherLoop, hss] at h
      have hsorted2 : List.Pairwise (· ≤ ·) rest := hsorted.of_cons
      have ha_le : ∀ k ∈ rest, a ≤ k := (List.pairwise_cons.mp hsorted).1
      have hbound2 : ∀ q ∈ dictInsert acc a sel, ∀ k ∈ rest, q.1 ≤ k := by
        intro q hq k hk
        rcases dictInsert_mem hq with hqd | rfl
        · exact hbound q hqd k (List.mem_cons_of_mem a hk)
        · exact ha_le k hk
      have hkeys2 : List.Pairwise (· < ·) ((dictInsert acc a sel).map Prod.fst) := by
        rw [dictInsert_keys]
        split
        · exact hkeys
        · rename_i hnotin
          rw [List.pairwise_append]
          refine ⟨hkeys, List.pairwise_singleton _ _, ?_⟩
          intro b hb c hc
          rw [List.mem_singleton] at hc
          rw [hc]
          obtain ⟨q, hq, rfl⟩ := List.mem_map.mp hb
          have hle : q.1 ≤ a := hbound q hq a (List.mem_cons_self a rest)
          refine lt_of_le_of_ne hle ?_
          intro hcontra
          exact hnotin (List.any_eq_true.mpr ⟨q, hq, by simp [hcontra]⟩)
      have hvals2 : ∀ q ∈ dictInsert acc a sel, List.Pairwise (· < ·) (q.2.map Prod.fst) := by
        intro q hq
        rcases dictInsert_mem hq with hqd | rfl
        · exact hvals q hqd
        · exact shiftAndSelect_ok_keys idx grid (-a) freq ui sel w hidx hss
      exact ih (dictInsert acc a sel) (ws ++ w) d wsOut hsorted2 hbound2 hkeys2 hvals2 h

theorem concatFrames_cons (p : Int × Frame (Option α)) (rest : List (Int × Frame (Option α))) :
    concatFrames (p :: rest) =
      p.2.map (fun q => ((p.1, q.1), q.2)) ++ concatFrames rest := by
  simp [concatFrames]

theorem concat_fst_mem (d : List (Int × Frame (Option α))) (q : Int × Int)
    (hq : q ∈ (concatFrames d).map Prod.fst) : q.1 ∈ d.map Prod.fst := by
  induction d with
  | nil => simp [concatFrames] at hq
  | cons p rest ih =>
    rw [concatFrames_cons, List.map_append] at hq
    rcases List.mem_append.mp hq with h1 | h1
    · rw [List.map_map] at h1
      obtain ⟨r, -, rfl⟩ := List.mem_map.mp h1
      exact List.mem_cons_self _ _
    · rw [List.map_cons]
      exact List.mem_cons_of_mem p.1 (ih h1)

theorem concat_pairwise (d : List (Int × Frame (Option α)))
    (hkeys : List.Pairwise (· < ·) (d.map Prod.fst))
    (hvals : ∀ p ∈ d, List.Pairwise (· < ·) (p.2.map Prod.fst)) :
    List.Pairwise keyLt ((concatFrames d).map Prod.fst) := by
  induction d with
  | nil => simp [concatFrames]
  | cons p rest ih =>
    rw [concatFrames_cons, List.map_append, List.pairwise_append]
    refine ⟨?_, ih hkeys.of_cons (fun q hq => hvals q (List.mem_cons_of_mem p hq)), ?_⟩
    · rw [List.map_map, List.pairwise_map]
      have hv := hvals p (List.mem_cons_self p rest)
      rw [List.pairwise_map] at hv
      exact hv.imp (fun h => Or.inr ⟨rfl, h⟩)
    · intro a ha b hb
      rw [List.map_map] at ha
      obtain ⟨r, -, rfl⟩ := List.mem_map.mp ha
      have hb1 : b.1 ∈ rest.map Prod.fst := concat_fst_mem rest b hb
      rw [List.map_cons] at hkeys
      exact Or.inl ((List.pairwise_cons.mp hkeys).1 b.1 hb1)

theorem keyLt_le {a b : Int × Int} (h : keyLt a b) : keyLe a b := by
  rcases h with h | ⟨he, hlt⟩
  · exact Or.inl h
  · exact Or.inr ⟨he, le_of_lt hlt⟩

/-! ### Claim theorems -/

/-- C3: if some offset in `relative_grid_indices` yields an empty
intersection between the events index and the shifted grid index, then
`build_local_timeseries` raises and the whole invocation aborts with no
partial result. -/
theorem build_empty_intersection_aborts (events : Frame β) (grid : Frame α)
    (offsets : List Int) (freq : Option Int) (ui : Bool)
    (h : ∃ k ∈ offsets, interIdx (indexOf events) (indexOf (shiftFrame grid (-k) freq)) = []) :
    ∃ e, buildLocalTimeseries events grid offsets freq ui = .error e := by
  unfold buildLocalTimeseries
  split
  · exact ⟨_, rfl⟩
  split
  · exact ⟨_, rfl⟩
  split
  · exact ⟨_, rfl⟩
  obtain ⟨k, hk, hek⟩ := h
  have hk2 : k ∈ sortOffsets offsets :=
    ((List.perm_insertionSort _ offsets).mem_iff).mpr hk
  obtain ⟨e, he⟩ :=
    gatherLoop_error_of_empty (indexOf events) grid freq ui (sortOffsets offsets) [] []
      ⟨k, hk2, hek⟩
  rw [he]
  exact ⟨e, rfl⟩

theorem build_empty_intersection_aborts_witness :
    ∃ e, buildLocalTimeseries ([((5 : Int), (0 : Int))]) ([((0 : Int), (10 : Int))])
      [0] none false = .error e :=
  build_empty_intersection_aborts _ _ _ _ _ ⟨0, by decide, by decide⟩

/-- C5: `build_local_timeseries` gives identical results on offset
collections that are permutations of each other. -/
theorem build_offsets_perm_invariant (events : Frame β) (grid : Frame α)
    (freq : Option Int) (ui : Bool) (l1 l2 : List Int) (h : l1.Perm l2) :
    buildLocalTimeseries events grid l1 freq ui =
      buildLocalTimeseries events grid l2 freq ui := by
  have hs : sortOffsets l1 = sortOffsets l2 := sortOffsets_eq_of_perm h
  have hl := h.length_eq
  have he : l1.isEmpty = l2.isEmpty := by
    cases l1 <;> cases l2 <;> simp_all
  unfold buildLocalTimeseries
  rw [hs, he]

theorem build_offsets_perm_invariant_witness :
    buildLocalTimeseries ([(1, 0), (2, 0)] : Frame Int)
        ([(0, 10), (1, 11), (2, 12), (3, 13)] : Frame Int) [1, -2, 0] none false =
      buildLocalTimeseries [(1, 0), (2, 0)] [(0, 10), (1, 11), (2, 12), (3, 13)]
        [-2, 0, 1] none false :=
  build_offsets_perm_invariant _ _ none false [1, -2, 0] [-2, 0, 1] (by decide)

/-- C8: a non-monotonic events index, a non-monotonic grid index, or an
empty offset collection makes `build_local_timeseries` fail immediately
with a validation error. -/
theorem build_validation_error (events : Frame β) (grid : Frame α)
    (offsets : List Int) (freq : Option Int) (ui : Bool)
    (h : ¬ List.Chain' (· < ·) (indexOf events) ∨
      ¬ List.Chain' (· < ·) (indexOf grid) ∨ offsets = []) :
    buildLocalTimeseries events grid offsets freq ui = .error .assertionError := by
  unfold buildLocalTimeseries
  by_cases h1 : strictIncrB (indexOf events) = true
  · by_cases h2 : strictIncrB (indexOf grid) = true
    · have h3 : offsets = [] := by
        rcases h with hc | hc | hc
        · exact absurd ((strictIncrB_iff _).mp h1) hc
        · exact absurd ((strictIncrB_iff _).mp h2) hc
        · exact hc
      subst h3
      simp [h1, h2]
    · rw [Bool.not_eq_true] at h2
      simp [h1, h2]
  · rw [Bool.not_eq_true] at h1
    simp [h1]

theorem build_validation_error_witness :
    buildLocalTimeseries ([((2 : Int), (0 : Int)), (1, 0)]) ([((0 : Int), (10 : Int))])
      [0] none false = .error .assertionError :=
  build_validation_error _ _ _ _ _ (Or.inl (by
    show ¬ List.Chain' (· < ·) [(2 : Int), 1]
    simp [List.chain'_cons]))

/-- C2: supplying a diagnostics container makes `build_local_timeseries`
raise `NameError` (the undefined `mode` at line 196), so the container is
never populated; moreover the source stores `intersection.difference(idx)`
(always empty), not the spec's `events_index - intersection`. -/
theorem build_info_diagnostics_divergence :
    buildLocalTimeseries [((0 : Int), (0 : Int)), (1, 0), (2, 0)]
        [((0 : Int), (10 : Int)), (1, 11)] [0] none true = .error .nameError ∧
    indicesWithNoData (interIdx [0, 1, 2] [0, 1]) [0, 1, 2] = [] ∧
    indicesWithNoDataSpec [0, 1, 2] (interIdx [0, 1, 2] [0, 1]) = [2] := by
  decide

/-- C6: at 2/3 coverage (below the 90% threshold) the offset is non-fatal
when no diagnostics container is supplied — a warning is recorded and the
intersecting rows are returned — but with a diagnostics container the same
call dies with `NameError` instead of continuing. -/
theorem build_coverage_shortfall_divergence :
    buildLocalTimeseries [((0 : Int), (0 : Int)), (1, 0), (2, 0)]
        [((1 : Int), (11 : Int)), (2, 12)] [0] none false =
      .ok ([((0, 1), some 11), ((0, 2), some 12)], [⟨0, 2, 3⟩]) ∧
    buildLocalTimeseries [((0 : Int), (0 : Int)), (1, 0), (2, 0)]
        [((1 : Int), (11 : Int)), (2, 12)] [0] none true = .error .nameError := by
  decide

/-- C4: whenever `build_local_timeseries` returns a table, the table's
composite (offset, timestamp) key sequence is monotonically non-decreasing,
with the offsets ascending as the outer key. -/
theorem build_output_keys_monotone (events : Frame β) (grid : Frame α)
    (offsets : List Int) (freq : Option Int) (ui : Bool)
    (df : List ((Int × Int) × Option α)) (ws : List Warn)
    (h : buildLocalTimeseries events grid offsets freq ui = .ok (df, ws)) :
    List.Pairwise keyLe (df.map Prod.fst) := by
  unfold buildLocalTimeseries at h
  split at h
  · exact absurd h (by simp)
  split at h
  · exact absurd h (by simp)
  split at h
  · exact absurd h (by simp)
  rename_i hEv hGd hOff
  cases hgl : gatherLoop (indexOf events) grid freq ui [] [] (sortOffsets offsets) with
  | error e =>
    rw [hgl] at h
    exact absurd h (by simp)
  | ok p =>
    obtain ⟨d, ws2⟩ := p
    simp only [hgl] at h
    split at h
    · exact absurd h (by simp)
    rw [Except.ok.injEq, Prod.mk.injEq] at h
    obtain ⟨hdf, -⟩ := h
    rw [← hdf]
    have hEv2 : strictIncrB (indexOf events) = true := by
      simpa using hEv
    have hidx := pairwise_lt_of_strictIncrB hEv2
    have hsorted : List.Pairwise (· ≤ ·) (sortOffsets offsets) :=
      List.sorted_insertionSort _ offsets
    obtain ⟨hdk, hdv⟩ :=
      gatherLoop_ok_dict (indexOf events) grid freq ui hidx (sortOffsets offsets)
        [] [] d ws2 hsorted (by simp) (by simp) (by simp) hgl
    exact (concat_pairwise d hdk hdv).imp (fun h => keyLt_le h)

theorem build_output_keys_monotone_witness :
    List.Pairwise keyLe
      (([((-1, 1), some 10), ((-1, 2), some 11), ((0, 1), some 11), ((0, 2), some 12),
        ((1, 1), some 12), ((1, 2), some 13)] :
          List ((Int × Int) × Option Int)).map Prod.fst) :=
  build_output_keys_monotone [(1, 0), (2, 0)] [(0, 10), (1, 11), (2, 12), (3, 13)]
    [-1, 0, 1] none false _ [] (by decide)

/-- C1: `regression` never reaches its return statement — the fitted-values
line calls `np.mat_mul`, which numpy does not define, so a well-posed call
(here a full-rank 2-observation, 1-predictor design with NaN-free response)
raises `AttributeError` instead of returning the fitted series. -/
theorem regression_mat_mul_error :
    regression ⟨1, [[1], [2]]⟩ [(10, some 1), (11, some 2)] = .error .attributeError := by
  simp only [regression]
  norm_num [applyMask, det, detN, matMul, dotProd, transposeM, zipCons, List.enum,
    List.enumFrom]

/-- C7: when the number of non-NaN response observations equals the number
of predictor columns, `regression` raises rather than returning a result
(it errors on every path: `LinAlgError` if `xᵗx` is singular, otherwise
`AttributeError` from the nonexistent `np.mat_mul`). -/
theorem regression_dof_error (x : DesignMatrix) (y : RSeries)
    (h : countNonNaN y = x.ncols) :
    ∃ e, regression x y = .error e := by
  simp only [regression]
  split
  · exact ⟨_, rfl⟩
  split
  · exact ⟨_, rfl⟩
  exact ⟨_, rfl⟩

theorem regression_dof_error_witness :
    ∃ e, regression ⟨1, [[1]]⟩ [(10, some 2)] = .error e :=
  regression_dof_error _ _ (by decide)

/-- C9: `reindex_event_features` returns a table indexed exactly by the
grid's index whose value at each grid timestamp is the event table's row
when that timestamp occurs among the events and the fill value (by default
the missing marker) otherwise; both inputs are read-only. -/
theorem reindex_event_features_contract (events : Frame γ) (grid : Frame δ)
    (fill : Option γ) (hev : List.Chain' (· < ·) (indexOf events)) :
    indexOf (reindexEventFeatures events grid fill) = indexOf grid ∧
    ∀ t v, (t, v) ∈ reindexEventFeatures events grid fill →
      ((∃ w, (t, w) ∈ events ∧ v = some w) ∨
        ((∀ w, (t, w) ∉ events) ∧ v = fill)) := by
  constructor
  · unfold reindexEventFeatures reindexFrame indexOf
    rw [List.map_map]
    simp
  · intro t v hm
    unfold reindexEventFeatures reindexFrame at hm
    obtain ⟨s, hs, heq⟩ := List.mem_map.mp hm
    obtain ⟨rfl, rfl⟩ := Prod.mk.injEq .. ▸ heq
    cases hl : lookupRow events s with
    | some w =>
      left
      refine ⟨w, ?_, rfl⟩
      unfold lookupRow at hl
      obtain ⟨q, hq, hq2⟩ := Option.map_eq_some'.mp hl
      have hq1 : q.1 = s := by
        simpa using List.find?_some hq
      have hqm := List.mem_of_find?_eq_some hq
      rw [← hq1, ← hq2]
      exact hqm
    | none =>
      right
      constructor
      · intro w hw
        unfold lookupRow at hl
        rw [Option.map_eq_none'] at hl
        have := List.find?_eq_none.mp hl (s, w) hw
        simp at this
      · rfl

theorem reindex_event_features_contract_witness :
    indexOf (reindexEventFeatures ([(1, 7), (3, 8)] : Frame Int)
        ([(0, 0), (1, 0), (2, 0), (3, 0)] : Frame Int) none) =
      indexOf ([(0, 0), (1, 0), (2, 0), (3, 0)] : Frame Int) ∧
    ∀ t v, (t, v) ∈ reindexEventFeatures ([(1, 7), (3, 8)] : Frame Int)
        ([(0, 0), (1, 0), (2, 0), (3, 0)] : Frame Int) none →
      ((∃ w, (t, w) ∈ ([(1, 7), (3, 8)] : Frame Int) ∧ v = some w) ∨
        ((∀ w, (t, w) ∉ ([(1, 7), (3, 8)] : Frame Int)) ∧ v = none)) :=
  reindex_event_features_contract [(1, 7), (3, 8)] [(0, 0), (1, 0), (2, 0), (3, 0)]
    none (by simp [indexOf, List.chain'_cons])

/-- C10 counterexample: a caller-supplied offset list is sorted in place by
`relative_grid_indices.sort()`, so the caller's collection is not unchanged
after the call. -/
theorem relative_grid_indices_mutated :
    ¬ (relativeGridIndicesAfterCall [1, -2, 0] true = [1, -2, 0]) := by
  decide

/-- C10 (amended): the caller's `relative_grid_indices` survives the call
unchanged exactly when it was passed as a non-list iterable or was already
sorted ascending; a list is sorted in place. -/
theorem relative_grid_indices_after_call_iff (l : List Int) (b : Bool) :
    relativeGridIndicesAfterCall l b = l ↔ (b = false ∨ List.Sorted (· ≤ ·) l) := by
  cases b
  · simp [relativeGridIndicesAfterCall]
  · simp only [relativeGridIndicesAfterCall, if_pos, Bool.true_eq_false, false_or]
    constructor
    · intro h
      rw [← h]
      exact List.sorted_insertionSort _ l
    · exact List.Sorted.insertionSort_eq

end EventStudy
